import Mathlib

/-!
# Verification of the QA orchestrator (`entrypoint.py`)

A shallow embedding of the core of the QA tool: the `Printer` output
broadcaster with its ANSI-to-HTML translation, the `FileCollection`
file-resolution engine (changed-only and full-scan policies), and the
`StepExecutor` orchestrator with its validator / external-script step
runners.  External collaborators (the filesystem glob, the two git
commands, and subprocess exit codes and output lines) are modelled as an
explicit environment `Env`; side effects (printing, setting environment
variables, launching subprocesses, creating and unlinking files) are
modelled as an explicit `Effect` trace.
-/

set_option autoImplicit false

/-- Helper for `pySplit`: split a character list at every separator,
keeping empty segments. -/
def pySplitAux (sep : Char) : List Char → List Char → List String
  | [], acc => [String.mk acc.reverse]
  | c :: cs, acc =>
    if c = sep then String.mk acc.reverse :: pySplitAux sep cs []
    else pySplitAux sep cs (c :: acc)

/-- Python `str.split("\n")` semantics (single-character separator,
empty segments kept): `"".split("\n") = [""]`,
`"a\n".split("\n") = ["a", ""]`. -/
def pySplit (s : String) : List String :=
  pySplitAux '\n' s.toList []

/-- Python `int` truthiness: an `if` on a process return code takes the
then-branch exactly when the code is nonzero. -/
def pyTruthyInt (n : Int) : Bool :=
  n != 0

/-- Python string indexing `s[i]` (returns a one-character string).
All uses in the source are in range. -/
def pyStrIndex (s : String) (i : Nat) : String :=
  String.singleton (s.toList.getD i ' ')

/-- A subprocess invocation: either an argument vector
(`subprocess.Popen(list, shell=False)`) or a shell command line
(`shell=True`). -/
inductive Cmd where
  | argv (args : List String)
  | shell (line : String)
  deriving DecidableEq, Repr

/-- Observable side effects of the orchestrator, in order of occurrence. -/
inductive Effect where
  | print (msg : String)
  | setenv (key : String) (val : String)
  | mkstemp (suffix : String)
  | run (cmd : Cmd)
  | unlink (path : String)
  deriving DecidableEq, Repr

/-- Python exceptions that the source can raise. -/
inductive PyErr where
  | keyError (key : String)
  | fileNotFound
  deriving DecidableEq, Repr

/-- The value of a pattern-group entry in the configuration: a bare glob
string or a list of glob strings (the source normalises a bare string to a
one-element list). -/
inductive PatternDef where
  | onePat (s : String)
  | many (l : List String)
  deriving DecidableEq, Repr

instance : Inhabited PatternDef := ⟨PatternDef.many []⟩

/-- The `if type(patterns) == str: patterns = [patterns]` normalisation. -/
def PatternDef.asList : PatternDef → List String
  | .onePat s => [s]
  | .many l => l

/-- A configured step: the optional `patterns` key (group names), and the
`profile` / `script` action keys. -/
structure Step where
  patterns : Option PatternDef
  profile : Option String
  script : Option String
  deriving DecidableEq, Repr

/-- The YAML configuration: ordered `patterns` and `steps` mappings
(absent keys are modelled as the empty list, matching the
`if "patterns" in config ... else []` defaulting). -/
structure Config where
  patterns : List (String × PatternDef)
  steps : List (String × Step)
  deriving DecidableEq, Repr

/-- The external world: filesystem glob results, the git collaborator
(availability, exit codes and raw stdout of the two commands), and the
exit code and streamed output lines of every other subprocess. -/
structure Env where
  glob : String → List String
  gitAvailable : Bool
  committedExit : Int
  committedStdout : String
  untrackedExit : Int
  untrackedStdout : String
  popenExit : Cmd → Int
  popenLines : Cmd → List String

/-- Python dict lookup `d[k]` on an ordered association list (dict keys
are unique, so first match is the dict entry). -/
def lookupDict {α : Type} : List (String × α) → String → Option α
  | [], _ => none
  | (k0, v0) :: st, k => if k0 = k then some v0 else lookupDict st k

/-- Python dict assignment `d[k] = v`: replace in place if the key
exists, append otherwise. -/
def storeSet : List (String × List String) → String → List String → List (String × List String)
  | [], k, v => [(k, v)]
  | (k0, v0) :: st, k, v => if k0 = k then (k0, v) :: st else (k0, v0) :: storeSet st k v

/-! ## Printer (output broadcaster) -/

/-- The `Printer.ANSI_TO_HTML` two-row palette: bold flag digit, hue
digit. A missing entry is a `KeyError` in the source, caught and turned
into the empty replacement. -/
def ANSI_TO_HTML (bold : Char) (hue : Char) : Option String :=
  match bold with
  | '0' =>
    match hue with
    | '0' => some "black"
    | '1' => some "darkred"
    | '2' => some "green"
    | '3' => some "orange"
    | '4' => some "darkblue"
    | '5' => some "purple"
    | '6' => some "lightblue"
    | '7' => some "lightgrey"
    | _ => none
  | '1' =>
    match hue with
    | '0' => some "black"
    | '1' => some "red"
    | '2' => some "lightgreen"
    | '3' => some "yellow"
    | '4' => some "blue"
    | '5' => some "magenta"
    | '6' => some "cyan"
    | '7' => some "white"
    | _ => none
  | _ => none

/-- `Printer._ansiToHTML`: the replacement text for a match of the color
regex, `""` on a palette `KeyError`. -/
def ansiColorRepl (bold : Char) (hue : Char) : List Char :=
  match ANSI_TO_HTML bold hue with
  | none => []
  | some color => ("</span><span style=\x27color: " ++ color ++ "\x27>").toList

/-- The replacement for the reset regex `\x1b\[0m`. -/
def resetRepl : List Char :=
  "</span><span style=\x27color: lightgrey\x27>".toList

/-- `re.sub('\x1b\[(0|1);3(.)m', self._ansiToHTML, message)`: a
left-to-right scan; at each position the seven-character pattern
(ESC, `[`, `0` or `1`, `;`, `3`, any non-newline, `m`) is tried, replaced
on a match, and the scan resumes after the match; otherwise the scan
advances one character. -/
def ansiColorSub : List Char → List Char
  | a :: b :: bold :: d :: e :: hue :: g :: rest =>
    if a = '\x1b' ∧ b = '[' ∧ (bold = '0' ∨ bold = '1') ∧ d = ';' ∧ e = '3' ∧ g = 'm' ∧
        hue ≠ '\n' then
      ansiColorRepl bold hue ++ ansiColorSub rest
    else a :: ansiColorSub (b :: bold :: d :: e :: hue :: g :: rest)
  | [] => []
  | a :: l => a :: ansiColorSub l

/-- `re.sub('\x1b\[0m', "</span><span style=...>", html_msg)`: the second
substitution pass, replacing every ESC `[0m`. -/
def ansiResetSub : List Char → List Char
  | a :: b :: c :: d :: rest =>
    if a = '\x1b' ∧ b = '[' ∧ c = '0' ∧ d = 'm' then resetRepl ++ ansiResetSub rest
    else a :: ansiResetSub (b :: c :: d :: rest)
  | [] => []
  | a :: l => a :: ansiResetSub l

/-- The full HTML translation applied to a message before it is sent over
the web socket: both regex passes, then the lightgrey wrapper span. -/
def Printer.translate (message : String) : String :=
  let body := ansiResetSub (ansiColorSub message.toList)
  "<span style=\x27color: lightgrey;\x27>" ++ String.mk body ++ "</span>"

/-- The attachable web socket (`None`, or a socket that may be closed). -/
structure Socket where
  closed : Bool
  deriving DecidableEq, Repr

/-- The `Printer` state: the optional attached socket. -/
structure PrinterState where
  socket : Option Socket
  deriving DecidableEq, Repr

/-- `Printer.write`: always emits the raw message to the console; if a
socket is attached and not closed, additionally sends the translated HTML
message. The first component is the console output, the second the
optional socket payload. -/
def Printer.write (p : PrinterState) (message : String) : String × Option String :=
  (message,
    match p.socket with
    | some s => if s.closed = false then some (Printer.translate message) else none
    | none => none)

/-! ## FileCollection (file resolution) -/

/-- The changed-file universe under the changed-only policy: the decoded,
newline-split stdout of `git diff --name-only --diff-filter=ACM
origin/main` followed by that of `git ls-files --others`.  The exit codes
of both commands are never consulted by the source. -/
def changedFiles (env : Env) : List String :=
  pySplit env.committedStdout ++ pySplit env.untrackedStdout

/-- The glob expansion of one pattern group: every pattern in order, each
recursively expanded. -/
def groupFiles (glob : String → List String) (pd : PatternDef) : List String :=
  (pd.asList.map glob).flatten

/-- The changed-only inner loop over one group's expanded file list: a
file is appended when it is in the remaining changed list, and one
occurrence is removed (`list.remove` removes the first occurrence).
Returns the group's list and the remaining changed list. -/
def addChanged : List String → List String → List String × List String
  | [], changed => ([], changed)
  | f :: fs, changed =>
    if f ∈ changed then
      let r := addChanged fs (changed.erase f)
      (f :: r.1, r.2)
    else addChanged fs changed

/-- The full-scan inner loop over one group's expanded file list: a file
is appended when it is not in the global `combined` list, which it is
then added to.  Returns the group's list and the updated `combined`. -/
def addFull : List String → List String → List String × List String
  | [], combined => ([], combined)
  | f :: fs, combined =>
    if f ∈ combined then addFull fs combined
    else
      let r := addFull fs (combined ++ [f])
      (f :: r.1, r.2)

/-- The changed-only group loop: groups in declaration order, threading
the remaining changed list. -/
def changedScanGo (glob : String → List String) :
    List (String × PatternDef) → List String → List (String × List String)
  | [], _ => []
  | g :: rest, changed =>
    (g.1, (addChanged (groupFiles glob g.2) changed).1) ::
      changedScanGo glob rest (addChanged (groupFiles glob g.2) changed).2

/-- The full-scan group loop: groups in declaration order, threading the
global `combined` seen-list. -/
def fullScanGo (glob : String → List String) :
    List (String × PatternDef) → List String → List (String × List String)
  | [], _ => []
  | g :: rest, combined =>
    (g.1, (addFull (groupFiles glob g.2) combined).1) ::
      fullScanGo glob rest (addFull (groupFiles glob g.2) combined).2

/-- The `FileCollection` object: the immutable pattern groups, the
`changed_only` policy flag, and the dict contents (group name to resolved
file list). -/
structure FileCollection where
  patterns : List (String × PatternDef)
  changed_only : Bool
  store : List (String × List String)
  deriving DecidableEq, Repr

/-- `FileCollection.__init__`: every group name is given an empty list. -/
def FileCollection.init (config : Config) (changed_only : Bool) : FileCollection :=
  { patterns := config.patterns
    changed_only := changed_only
    store := config.patterns.map (fun p => (p.1, [])) }

/-- `FileCollection.resolve`: reset every existing key to `[]`, obtain
the changed-file universe from git under the changed-only policy (an
unavailable `git` binary raises `FileNotFoundError` from
`subprocess.run`; a *failing* `git` is not detected), then run the group
loop and write each group's list into the dict. -/
def FileCollection.resolve (fc : FileCollection) (env : Env) : Except PyErr FileCollection :=
  if fc.changed_only ∧ env.gitAvailable = false then .error .fileNotFound
  else
    let store0 := fc.store.map (fun kv => (kv.1, ([] : List String)))
    let body :=
      if fc.changed_only then changedScanGo env.glob fc.patterns (changedFiles env)
      else fullScanGo env.glob fc.patterns []
    .ok { fc with store := body.foldl (fun st nv => storeSet st nv.1 nv.2) store0 }

/-! ## StepExecutor -/

/-- The `StepExecutor` object: the configured steps, the file collection,
and the debug flag. -/
structure StepExecutor where
  steps : List (String × Step)
  fc : FileCollection
  debug : Bool
  deriving DecidableEq, Repr

/-- `StepExecutor.__init__` (the printer holds no state used by
`execute`'s result, so it is not a field; its writes appear in the
effect trace). -/
def StepExecutor.init (config : Config) (fc : FileCollection) : StepExecutor :=
  { steps := config.steps, fc := fc, debug := false }

/-- `StepExecutor._popen`: launch the subprocess, stream each output line
to the printer, and return the exit code. -/
def popen (env : Env) (cmd : Cmd) : List Effect × Int :=
  (Effect.run cmd :: (env.popenLines cmd).map Effect.print, env.popenExit cmd)

/-- The one-character output path actually used by `_runValidator`: the
source rebinds `out_file` from the `mkstemp` pair to the **string**
`"output.xml"`, so `out_file[1]` is the string `"u"`. -/
def validatorOutArg : String :=
  pyStrIndex "output.xml" 1

/-- The fixed validator command of `_runValidator`. -/
def validatorCmd (profile : String) (files : List String) : Cmd :=
  Cmd.argv (["java", "-jar", "validator_cli.jar",
             "-ig", "qa", "-ig", "resources", "-recurse",
             "-profile", profile,
             "-output", validatorOutArg] ++ files)

/-- The fixed artifact-analysis command of `_runValidator`. -/
def analyzeCmd (outPath : String) : Cmd :=
  Cmd.argv ["python3", "../hl7-validator-action/analyze_results.py", "--colorize",
            "--fail-at", "error", "--ignored-issues", "known-issues.yml", outPath]

/-- The warning printed by `_runValidator` in non-debug mode. -/
def validatorWarnMsg : String :=
  "\x1b[0;33mThere was an error running the validator. Re-run with the --debug option to see the output.\x1b[0m"

/-- `StepExecutor._runValidator`: run the validator, then branch on the
**truthiness** of its integer return code (`if result_validator:`), run
the analysis on the truthy branch (again testing truthiness of its return
code), print the warning on the falsy branch when not debugging, and
unlink `out_file[1]` unconditionally at the end. -/
def runValidator (env : Env) (debug : Bool) (profile : String) (files : List String) :
    List Effect × Bool :=
  let r1 := popen env (validatorCmd profile files)
  let base := Effect.mkstemp ".xml" :: r1.1
  if pyTruthyInt r1.2 then
    let r2 := popen env (analyzeCmd validatorOutArg)
    (base ++ r2.1 ++ [Effect.unlink validatorOutArg], pyTruthyInt r2.2)
  else
    if debug = false then
      (base ++ [Effect.print validatorWarnMsg, Effect.unlink validatorOutArg], false)
    else
      (base ++ [Effect.unlink validatorOutArg], false)

/-- `StepExecutor._runExternalCommand`: one shell invocation with the
files appended; success is `exit code == 0`. -/
def runExternalCommand (env : Env) (command : String) (files : List String) :
    List Effect × Bool :=
  let r := popen env (Cmd.shell (command ++ " " ++ String.intercalate " " files))
  (r.1, r.2 = 0)

/-- The file-gathering loop of `execute`: for each referenced group name,
append the group's resolved list from the file collection dict; an
unknown group name raises `KeyError`. -/
def gatherGo (store : List (String × List String)) : List String → Except PyErr (List String)
  | [] => .ok []
  | g :: gs =>
    match lookupDict store g with
    | none => .error (.keyError g)
    | some l =>
      match gatherGo store gs with
      | .error e => .error e
      | .ok r => .ok (l ++ r)

/-- `files` for one step: empty if the step has no `patterns` key,
otherwise the concatenation of the referenced groups' lists. -/
def gatherFiles (store : List (String × List String)) (step : Step) :
    Except PyErr (List String) :=
  match step.patterns with
  | none => .ok []
  | some pd => gatherGo store pd.asList

/-- The action dispatch of `execute`: `profile` first, `script` second,
neither key leaves the aggregate untouched; the step result is ANDed into
the running aggregate. -/
def runAction (env : Env) (debug : Bool) (step : Step) (files : List String) (overall : Bool) :
    List Effect × Bool :=
  match step.profile with
  | some p =>
    let r := runValidator env debug p files
    (r.1, overall && r.2)
  | none =>
    match step.script with
    | some s =>
      let r := runExternalCommand env s files
      (r.1, overall && r.2)
    | none => ([], overall)

/-- The step announcement line. -/
def announceMsg (name : String) : String :=
  "\x1b[1;37m+++ " ++ name ++ "\x1b[0m"

/-- The final summary line of `execute`. -/
def summaryMsg (overall : Bool) : String :=
  if overall then "All checks finished succesfully" else "Not all checks finished successfully"

/-- The step loop of `StepExecutor.execute`: look the step up (a missing
name raises `KeyError`), announce it, gather its files, short-circuit the
whole run with `return True` when no files match, otherwise dispatch the
action and continue; after the loop print the summary and fall off the
end (Python returns `None`). -/
def execGo (ex : StepExecutor) (env : Env) (store : List (String × List String)) :
    List String → Bool → List Effect × Except PyErr (Option Bool)
  | [], overall => ([Effect.print (summaryMsg overall)], .ok none)
  | name :: rest, overall =>
    match lookupDict ex.steps name with
    | none => ([], .error (.keyError name))
    | some step =>
      match gatherFiles store step with
      | .error e => ([Effect.print (announceMsg name)], .error e)
      | .ok files =>
        if files.length = 0 then
          ([Effect.print (announceMsg name), Effect.print "Nothing to check, skipping"],
           .ok (some true))
        else
          let r := runAction env ex.debug step files overall
          let r2 := execGo ex env store rest r.2
          (Effect.print (announceMsg name) :: (r.1 ++ r2.1), r2.2)

/-- The two environment-variable writes at the top of `execute`. -/
def executeSetup (ex : StepExecutor) : List Effect :=
  [Effect.setenv "debug" (if ex.debug then "1" else "0"),
   Effect.setenv "changed_only" (if ex.fc.changed_only then "1" else "0")]

/-- `StepExecutor.execute`: set the environment signals, resolve the file
collection once, then run the step loop with the aggregate initialised to
`True`. -/
def StepExecutor.execute (ex : StepExecutor) (env : Env) (stepNames : List String) :
    List Effect × Except PyErr (Option Bool) :=
  match FileCollection.resolve ex.fc env with
  | .error e => (executeSetup ex, .error e)
  | .ok fc2 =>
    let r := execGo ex env fc2.store stepNames true
    (executeSetup ex ++ r.1, r.2)

/-! ## Derived notions used by the specification statements -/

/-- The resolved list of the `i`-th declared group in a resolution result
(`[]` out of range). -/
def resolvedGroup (res : List (String × List String)) (i : Nat) : List String :=
  (res.getD i ("", [])).2

/-- The pattern definition of the `i`-th declared group. -/
def groupPats (groups : List (String × PatternDef)) (i : Nat) : PatternDef :=
  (groups.getD i ("", PatternDef.many [])).2

/-- A step "runs" (is neither a `KeyError` nor an empty-file
short-circuit): it is declared, its referenced groups all exist, and its
gathered file list is non-empty. -/
def stepRuns (ex : StepExecutor) (store : List (String × List String)) (name : String) : Bool :=
  match lookupDict ex.steps name with
  | none => false
  | some step =>
    match gatherFiles store step with
    | .error _ => false
    | .ok files => files.length != 0

/-- The effect trace contributed by one step that runs (the announcement
followed by its action's effects; the action trace does not depend on the
incoming aggregate). -/
def stepTrace (ex : StepExecutor) (env : Env) (store : List (String × List String))
    (name : String) : List Effect :=
  match lookupDict ex.steps name with
  | none => []
  | some step =>
    match gatherFiles store step with
    | .error _ => [Effect.print (announceMsg name)]
    | .ok files =>
      if files.length = 0 then
        [Effect.print (announceMsg name), Effect.print "Nothing to check, skipping"]
      else Effect.print (announceMsg name) :: (runAction env ex.debug step files true).1

/-! ## Concrete fixtures for the counterexample and code-divergence
theorems and for the witnesses -/

/-- A one-step configuration: group `unit` matching Python files, step
`lint` running the script `pylint` on that group. -/
def cfgC1 : Config :=
  { patterns := [("unit", PatternDef.onePat "**/*.py")]
    steps := [("lint",
      { patterns := some (PatternDef.onePat "unit"), profile := none,
        script := some "pylint" })] }

/-- Environment for `cfgC1`: one matching file, every subprocess exits 0
with no output, git benign. -/
def envC1 : Env :=
  { glob := fun p => if p = "**/*.py" then ["a.py"] else []
    gitAvailable := true
    committedExit := 0
    committedStdout := ""
    untrackedExit := 0
    untrackedStdout := ""
    popenExit := fun _ => 0
    popenLines := fun _ => [] }

/-- The executor for `cfgC1` under the full-scan policy. -/
def exC1 : StepExecutor :=
  StepExecutor.init cfgC1 (FileCollection.init cfgC1 false)

/-- Environment in which every subprocess exits 0 (success). -/
def envC2ok : Env := envC1

/-- Environment in which every subprocess exits 1 (failure). -/
def envC2bad : Env :=
  { envC1 with popenExit := fun _ => 1 }

/-- Configuration for the git-failure scenario: one group. -/
def cfgC4 : Config :=
  { patterns := [("unit", PatternDef.onePat "**/*.py")], steps := [] }

/-- Environment for the git-failure scenario: `git diff` exits 128 (for
example because `origin/main` does not exist) with empty stdout, while
the glob does match a file. -/
def envC4 : Env :=
  { glob := fun p => if p = "**/*.py" then ["a.py"] else []
    gitAvailable := true
    committedExit := 128
    committedStdout := ""
    untrackedExit := 0
    untrackedStdout := ""
    popenExit := fun _ => 0
    popenLines := fun _ => [] }

/-- The resolution the source produces in the git-failure scenario:
it completes normally with the group silently empty. -/
def fcC4res : FileCollection :=
  { patterns := [("unit", PatternDef.onePat "**/*.py")]
    changed_only := true
    store := [("unit", [])] }

/-- A printer with an attached, open socket. -/
def printerOpen : PrinterState :=
  { socket := some { closed := false } }

/-- Configuration for the duplicate-within-group scenario: one group with
two overlapping patterns. -/
def cfgC8 : Config :=
  { patterns := [("g", PatternDef.many ["p1", "p2"])], steps := [] }

/-- Environment for the duplicate-within-group scenario: both patterns
match the same path `a`, and both git listings report `a`. -/
def envC8 : Env :=
  { glob := fun p => if p = "p1" ∨ p = "p2" then ["a"] else []
    gitAvailable := true
    committedExit := 0
    committedStdout := "a\n"
    untrackedExit := 0
    untrackedStdout := "a\n"
    popenExit := fun _ => 0
    popenLines := fun _ => [] }

/-- The resolution the source produces in the duplicate scenario: the
path `a` appears twice in the single group's list. -/
def fcC8res : FileCollection :=
  { patterns := [("g", PatternDef.many ["p1", "p2"])]
    changed_only := true
    store := [("g", ["a", "a"])] }

/-- Two-group configuration whose groups' patterns overlap completely:
the earliest group should claim the contested path. -/
def cfgW5 : Config :=
  { patterns := [("g1", PatternDef.onePat "*"), ("g2", PatternDef.onePat "*")], steps := [] }

/-- Environment for `cfgW5`: the shared pattern matches one file. -/
def envW5 : Env :=
  { glob := fun p => if p = "*" then ["a.py"] else []
    gitAvailable := true
    committedExit := 0
    committedStdout := ""
    untrackedExit := 0
    untrackedStdout := ""
    popenExit := fun _ => 0
    popenLines := fun _ => [] }

/-- The full-scan resolution of `cfgW5` under `envW5`: the first group
claims the contested path, the second stays empty. -/
def fcW5 : FileCollection :=
  { patterns := [("g1", PatternDef.onePat "*"), ("g2", PatternDef.onePat "*")]
    changed_only := false
    store := [("g1", ["a.py"]), ("g2", [])] }

/-- Three-step configuration for the short-circuit and missing-step
scenarios: step `a` has files, step `b` resolves to no files, step `c`
would run after them. -/
def cfgW3 : Config :=
  { patterns := [("pa", PatternDef.onePat "pa*"), ("pb", PatternDef.onePat "pb*")]
    steps := [("a", { patterns := some (PatternDef.onePat "pa"), profile := none,
                      script := some "echo" }),
              ("b", { patterns := some (PatternDef.onePat "pb"), profile := none,
                      script := some "echo" }),
              ("c", { patterns := some (PatternDef.onePat "pa"), profile := none,
                      script := some "echo" })] }

/-- Environment for `cfgW3`: pattern `pa*` matches one file, pattern
`pb*` matches nothing. -/
def envW3 : Env :=
  { glob := fun p => if p = "pa*" then ["f1"] else []
    gitAvailable := true
    committedExit := 0
    committedStdout := ""
    untrackedExit := 0
    untrackedStdout := ""
    popenExit := fun _ => 0
    popenLines := fun _ => [] }

/-- The executor for `cfgW3` under the full-scan policy. -/
def exW3 : StepExecutor :=
  StepExecutor.init cfgW3 (FileCollection.init cfgW3 false)

/-- The resolved collection for `cfgW3` under `envW3`. -/
def fcW3res : FileCollection :=
  { patterns := [("pa", PatternDef.onePat "pa*"), ("pb", PatternDef.onePat "pb*")]
    changed_only := false
    store := [("pa", ["f1"]), ("pb", [])] }

/-! ## C1, C2, C4: divergences of the code from the specification -/

/-- C1: the claim states that a run of `execute` that does not take the
empty-step short-circuit returns the AND of the executed steps' results.
The source never returns the aggregate: after the loop it prints the
summary and falls off the end, returning `None`.  Here a run whose single
step succeeds (its script exits 0, so the AND of the executed steps is
`true`, as the third conjunct shows, and the success summary is printed,
as the second shows) still returns `None`. -/
theorem execute_returns_none_despite_success :
    (StepExecutor.execute exC1 envC1 ["lint"]).2 = Except.ok none
    ∧ (StepExecutor.execute exC1 envC1 ["lint"]).1.getLast? =
        some (Effect.print "All checks finished succesfully")
    ∧ (runExternalCommand envC1 "pylint" ["a.py"]).2 = true :=
  ⟨rfl, rfl, rfl⟩

/-- C2: the claim states the validator step succeeds exactly when both
external invocations exit successfully, and that the warning is emitted
when the primary invocation fails.  The source tests the *truthiness* of
the integer return codes (`if result_validator:`), which inverts the
logic: when both invocations exit 0 the step is reported failed and the
warning is printed, and when both exit 1 the step is reported
successful. -/
theorem runValidator_truthiness_inverted :
    (runValidator envC2ok false "myprofile" ["f.json"]).2 = false
    ∧ Effect.print validatorWarnMsg ∈ (runValidator envC2ok false "myprofile" ["f.json"]).1
    ∧ (runValidator envC2bad false "myprofile" ["f.json"]).2 = true := by
  refine ⟨rfl, ?_, rfl⟩
  decide

/-- C4: the claim states that under the changed-only policy a failing
version-control command aborts resolution with a `ResolutionError`.  The
source never examines the git exit codes: with `git diff` exiting 128 and
producing no output, `resolve` completes normally with every group
silently empty, even though the glob did match a file. -/
theorem resolve_completes_despite_git_failure :
    FileCollection.resolve (FileCollection.init cfgC4 true) envC4 = Except.ok fcC4res
    ∧ envC4.committedExit = 128
    ∧ envC4.glob "**/*.py" = ["a.py"] :=
  ⟨rfl, rfl, rfl⟩

/-- C7 counterexample: the claim states that an unrecognized escape code
such as `ESC[1;99m` translates to the empty string.  The color regex
requires the literal `3` before the hue digit, so `ESC[1;99m` matches
neither substitution and is forwarded to the live listener verbatim, not
dropped. -/
theorem write_unrecognized_code_not_dropped :
    (Printer.write printerOpen "A\x1b[1;99mB").2 =
      some "<span style=\x27color: lightgrey;\x27>A\x1b[1;99mB</span>"
    ∧ (Printer.write printerOpen "A\x1b[1;99mB").2 ≠
      some "<span style=\x27color: lightgrey;\x27>AB</span>" := by
  refine ⟨rfl, ?_⟩
  decide

/-- C8 counterexample: the claim states that no path ever appears twice
within one group's list, for all version-control outputs, including a
path reported by both the committed-diff and the untracked listings.
With both listings reporting `a` the changed multiset holds `a` twice, so
two overlapping patterns of the same group each claim one occurrence and
the group's list becomes `["a", "a"]`. -/
theorem resolve_duplicate_within_group :
    FileCollection.resolve (FileCollection.init cfgC8 true) envC8 = Except.ok fcC8res
    ∧ ¬ (resolvedGroup fcC8res.store 0).Nodup := by
  refine ⟨rfl, ?_⟩
  decide

/-! ## Lemmas about the full-scan group loop -/

theorem addFull_fst_mem (p : String) :
    ∀ (fs combined : List String), p ∈ (addFull fs combined).1 ↔ p ∈ fs ∧ p ∉ combined := by
  intro fs
  induction fs with
  | nil => intro combined; simp [addFull]
  | cons f fs ih =>
    intro combined
    by_cases hf : f ∈ combined
    · rw [addFull, if_pos hf, ih]
      constructor
      · rintro ⟨h1, h2⟩
        exact ⟨List.mem_cons_of_mem _ h1, h2⟩
      · rintro ⟨h1, h2⟩
        rcases List.mem_cons.mp h1 with h | h
        · exact absurd (h ▸ hf) h2
        · exact ⟨h, h2⟩
    · rw [addFull, if_neg hf]
      simp only [List.mem_cons, ih, List.mem_append, List.mem_singleton]
      constructor
      · rintro (h | ⟨h1, h2⟩)
        · exact ⟨Or.inl h, h ▸ hf⟩
        · exact ⟨Or.inr h1, fun hc => h2 (Or.inl hc)⟩
      · rintro ⟨h1 | h1, h2⟩
        · exact Or.inl h1
        · by_cases hpf : p = f
          · exact Or.inl hpf
          · exact Or.inr ⟨h1, fun hc => hc.elim h2 (fun h9 => h9.elim hpf (List.not_mem_nil p))⟩

theorem addFull_snd_mem (p : String) :
    ∀ (fs combined : List String), p ∈ (addFull fs combined).2 ↔ p ∈ combined ∨ p ∈ fs := by
  intro fs
  induction fs with
  | nil => intro combined; simp [addFull]
  | cons f fs ih =>
    intro combined
    by_cases hf : f ∈ combined
    · rw [addFull, if_pos hf]
      simp only [ih, List.mem_cons]
      constructor
      · rintro (h | h)
        · exact Or.inl h
        · exact Or.inr (Or.inr h)
      · rintro (h | h | h)
        · exact Or.inl h
        · exact Or.inl (h ▸ hf)
        · exact Or.inr h
    · rw [addFull, if_neg hf]
      simp only [ih, List.mem_append, List.mem_singleton, List.mem_cons]
      tauto

theorem addFull_fst_nodup :
    ∀ (fs combined : List String), (addFull fs combined).1.Nodup := by
  intro fs
  induction fs with
  | nil => intro combined; simp [addFull]
  | cons f fs ih =>
    intro combined
    by_cases hf : f ∈ combined
    · rw [addFull, if_pos hf]; exact ih combined
    · rw [addFull, if_neg hf]
      refine List.nodup_cons.mpr ⟨?_, ih (combined ++ [f])⟩
      intro hmem
      have := (addFull_fst_mem f fs (combined ++ [f])).mp hmem
      exact this.2 (List.mem_append.mpr (Or.inr (List.mem_singleton.mpr rfl)))

theorem resolvedGroup_cons_zero (e : String × List String) (t : List (String × List String)) :
    resolvedGroup (e :: t) 0 = e.2 := rfl

theorem resolvedGroup_cons_succ (e : String × List String) (t : List (String × List String))
    (i : Nat) : resolvedGroup (e :: t) (i + 1) = resolvedGroup t i := rfl

theorem groupPats_cons_zero (e : String × PatternDef) (t : List (String × PatternDef)) :
    groupPats (e :: t) 0 = e.2 := rfl

theorem groupPats_cons_succ (e : String × PatternDef) (t : List (String × PatternDef))
    (i : Nat) : groupPats (e :: t) (i + 1) = groupPats t i := rfl

/-- Membership characterisation of the full-scan loop: a path lands in
the `i`-th group's list exactly when some pattern of that group matches
it, it was not already in the incoming `combined` list, and no earlier
group matches it. -/
theorem fullScanGo_mem (glob : String → List String) :
    ∀ (groups : List (String × PatternDef)) (combined : List String) (i : Nat),
      i < groups.length → ∀ p,
      (p ∈ resolvedGroup (fullScanGo glob groups combined) i ↔
        p ∈ groupFiles glob (groupPats groups i) ∧ p ∉ combined ∧
          ∀ k, k < i → p ∉ groupFiles glob (groupPats groups k)) := by
  intro groups
  induction groups with
  | nil => intro combined i hi; simp at hi
  | cons g rest ih =>
    intro combined i hi p
    match i with
    | 0 =>
      rw [show resolvedGroup (fullScanGo glob (g :: rest) combined) 0 =
            (addFull (groupFiles glob g.2) combined).1 from rfl,
          addFull_fst_mem, groupPats_cons_zero]
      simp
    | Nat.succ i =>
      have hi' : i < rest.length := by simpa using hi
      rw [show resolvedGroup (fullScanGo glob (g :: rest) combined) (i + 1) =
            resolvedGroup (fullScanGo glob rest (addFull (groupFiles glob g.2) combined).2) i
            from rfl,
          ih (addFull (groupFiles glob g.2) combined).2 i hi' p, groupPats_cons_succ]
      constructor
      · rintro ⟨h1, h2, h3⟩
        have h2' : ¬(p ∈ combined ∨ p ∈ groupFiles glob g.2) := by
          rw [← addFull_snd_mem]; exact h2
        refine ⟨h1, fun hc => h2' (Or.inl hc), ?_⟩
        intro k hk
        match k with
        | 0 => rw [groupPats_cons_zero]; exact fun hc => h2' (Or.inr hc)
        | Nat.succ k =>
          rw [groupPats_cons_succ]
          exact h3 k (by omega)
      · rintro ⟨h1, h2, h3⟩
        refine ⟨h1, ?_, ?_⟩
        · rw [addFull_snd_mem]
          rintro (hc | hc)
          · exact h2 hc
          · exact h3 0 (by omega) (by rw [groupPats_cons_zero]; exact hc)
        · intro k hk
          have := h3 (k + 1) (by omega)
          rw [groupPats_cons_succ] at this
          exact this

theorem fullScanGo_nodup (glob : String → List String) :
    ∀ (groups : List (String × PatternDef)) (combined : List String) (i : Nat),
      i < groups.length → (resolvedGroup (fullScanGo glob groups combined) i).Nodup := by
  intro groups
  induction groups with
  | nil => intro combined i hi; simp at hi
  | cons g rest ih =>
    intro combined i hi
    match i with
    | 0 =>
      rw [show resolvedGroup (fullScanGo glob (g :: rest) combined) 0 =
            (addFull (groupFiles glob g.2) combined).1 from rfl]
      exact addFull_fst_nodup _ _
    | Nat.succ i =>
      have hi' : i < rest.length := by simpa using hi
      exact ih (addFull (groupFiles glob g.2) combined).2 i hi'

/-! ## Bridging `resolve` on a freshly initialised collection to the
group loops -/

theorem fullScanGo_map_fst (glob : String → List String) :
    ∀ (groups : List (String × PatternDef)) (combined : List String),
      (fullScanGo glob groups combined).map Prod.fst = groups.map Prod.fst := by
  intro groups
  induction groups with
  | nil => intro combined; rfl
  | cons g rest ih => intro combined; simp [fullScanGo, ih]

theorem changedScanGo_map_fst (glob : String → List String) :
    ∀ (groups : List (String × PatternDef)) (changed : List String),
      (changedScanGo glob groups changed).map Prod.fst = groups.map Prod.fst := by
  intro groups
  induction groups with
  | nil => intro changed; rfl
  | cons g rest ih => intro changed; simp [changedScanGo, ih]

theorem storeSet_head_ne (k0 : String) (v0 : List String) (st : List (String × List String))
    (k : String) (v : List String) (h : k0 ≠ k) :
    storeSet ((k0, v0) :: st) k v = (k0, v0) :: storeSet st k v := by
  simp [storeSet, h]

theorem foldl_storeSet_cons_ne :
    ∀ (body : List (String × List String)) (st : List (String × List String))
      (k0 : String) (v0 : List String), (∀ e ∈ body, e.1 ≠ k0) →
      body.foldl (fun s nv => storeSet s nv.1 nv.2) ((k0, v0) :: st) =
        (k0, v0) :: body.foldl (fun s nv => storeSet s nv.1 nv.2) st := by
  intro body
  induction body with
  | nil => intro st k0 v0 _; rfl
  | cons e body ih =>
    intro st k0 v0 h
    have he : e.1 ≠ k0 := h e (List.mem_cons_self e body)
    simp only [List.foldl_cons]
    rw [storeSet_head_ne k0 v0 st e.1 e.2 (fun hc => he hc.symm)]
    exact ih (storeSet st e.1 e.2) k0 v0 (fun x hx => h x (List.mem_cons_of_mem e hx))

theorem foldl_storeSet_self :
    ∀ (body : List (String × List String)), (body.map Prod.fst).Nodup →
      body.foldl (fun s nv => storeSet s nv.1 nv.2)
          (body.map (fun kv => (kv.1, ([] : List String)))) = body := by
  intro body
  induction body with
  | nil => intro _; rfl
  | cons e body ih =>
    intro h
    have h2 : (e.1 :: body.map Prod.fst).Nodup := by rw [List.map_cons] at h; exact h
    have hnd := List.nodup_cons.mp h2
    simp only [List.map_cons, List.foldl_cons]
    rw [show storeSet ((e.1, ([] : List String)) :: body.map (fun kv => (kv.1, [])))
          e.1 e.2 = (e.1, e.2) :: body.map (fun kv => (kv.1, [])) by simp [storeSet]]
    rw [foldl_storeSet_cons_ne body _ e.1 e.2 ?hne]
    · rw [ih hnd.2]
    case hne =>
      intro x hx hc
      exact hnd.1 (hc ▸ List.mem_map_of_mem Prod.fst hx)

theorem map_reset_eq_map_fst (l : List (String × List String)) :
    l.map (fun kv => (kv.1, ([] : List String))) =
      (l.map Prod.fst).map (fun n => (n, ([] : List String))) := by
  rw [List.map_map]; rfl

theorem map_fst_reset (l : List (String × PatternDef)) :
    (l.map (fun p => (p.1, ([] : List String)))).map Prod.fst = l.map Prod.fst := by
  rw [List.map_map]; rfl

/-- The definitional unfolding of `FileCollection.resolve`. -/
theorem resolve_eq (fc : FileCollection) (env : Env) :
    FileCollection.resolve fc env =
      if fc.changed_only ∧ env.gitAvailable = false then Except.error PyErr.fileNotFound
      else Except.ok (FileCollection.mk fc.patterns fc.changed_only
        ((if fc.changed_only then changedScanGo env.glob fc.patterns (changedFiles env)
          else fullScanGo env.glob fc.patterns []).foldl
          (fun st nv => storeSet st nv.1 nv.2)
          (fc.store.map (fun kv => (kv.1, ([] : List String)))))) := rfl

/-- On a freshly initialised collection with distinct group names,
full-scan `resolve` stores exactly the full-scan group loop's output. -/
theorem resolve_init_full (cfg : Config) (env : Env)
    (hnd : (cfg.patterns.map Prod.fst).Nodup) :
    FileCollection.resolve (FileCollection.init cfg false) env =
      Except.ok { patterns := cfg.patterns, changed_only := false,
                  store := fullScanGo env.glob cfg.patterns [] } := by
  have hfst : (fullScanGo env.glob cfg.patterns []).map Prod.fst = cfg.patterns.map Prod.fst :=
    fullScanGo_map_fst env.glob cfg.patterns []
  have hstore : (cfg.patterns.map (fun p => (p.1, ([] : List String)))).map
        (fun kv => (kv.1, ([] : List String)))
      = (fullScanGo env.glob cfg.patterns []).map (fun kv => (kv.1, ([] : List String))) := by
    rw [map_reset_eq_map_fst, map_reset_eq_map_fst, hfst, map_fst_reset]
  have hfold := foldl_storeSet_self (fullScanGo env.glob cfg.patterns [])
    (by rw [hfst]; exact hnd)
  show Except.ok (FileCollection.mk cfg.patterns false
      ((fullScanGo env.glob cfg.patterns []).foldl (fun st nv => storeSet st nv.1 nv.2)
        ((cfg.patterns.map (fun p => (p.1, ([] : List String)))).map
          (fun kv => (kv.1, ([] : List String))))))
    = Except.ok (FileCollection.mk cfg.patterns false (fullScanGo env.glob cfg.patterns []))
  rw [hstore, hfold]

/-- On a freshly initialised collection with distinct group names and an
available git, changed-only `resolve` stores exactly the changed-only
group loop's output. -/
theorem resolve_init_changed (cfg : Config) (env : Env)
    (hnd : (cfg.patterns.map Prod.fst).Nodup) (hgit : env.gitAvailable = true) :
    FileCollection.resolve (FileCollection.init cfg true) env =
      Except.ok { patterns := cfg.patterns, changed_only := true,
                  store := changedScanGo env.glob cfg.patterns (changedFiles env) } := by
  have hfst : (changedScanGo env.glob cfg.patterns (changedFiles env)).map Prod.fst
      = cfg.patterns.map Prod.fst :=
    changedScanGo_map_fst env.glob cfg.patterns (changedFiles env)
  have hstore : (cfg.patterns.map (fun p => (p.1, ([] : List String)))).map
        (fun kv => (kv.1, ([] : List String)))
      = (changedScanGo env.glob cfg.patterns (changedFiles env)).map
          (fun kv => (kv.1, ([] : List String))) := by
    rw [map_reset_eq_map_fst, map_reset_eq_map_fst, hfst, map_fst_reset]
  have hfold := foldl_storeSet_self (changedScanGo env.glob cfg.patterns (changedFiles env))
    (by rw [hfst]; exact hnd)
  rw [resolve_eq]
  rw [if_neg (by simp [FileCollection.init, hgit])]
  show Except.ok (FileCollection.mk cfg.patterns true
      ((changedScanGo env.glob cfg.patterns (changedFiles env)).foldl
        (fun st nv => storeSet st nv.1 nv.2)
        ((cfg.patterns.map (fun p => (p.1, ([] : List String)))).map
          (fun kv => (kv.1, ([] : List String))))))
    = Except.ok (FileCollection.mk cfg.patterns true
        (changedScanGo env.glob cfg.patterns (changedFiles env)))
  rw [hstore, hfold]

/-- C5: under the full-scan policy, distinct pattern groups' resolved
lists are disjoint, and a path matched by several groups is assigned to
the group declared earliest: membership in the `j`-th group's list is
equivalent to being matched by that group's patterns and by no earlier
group's. -/
theorem fullscan_disjoint_earliest_group (cfg : Config) (env : Env) (fc2 : FileCollection)
    (hnd : (cfg.patterns.map Prod.fst).Nodup)
    (hres : FileCollection.resolve (FileCollection.init cfg false) env = Except.ok fc2) :
    (∀ i j, i < cfg.patterns.length → j < cfg.patterns.length → i ≠ j →
      ∀ p, p ∈ resolvedGroup fc2.store i → p ∉ resolvedGroup fc2.store j)
    ∧ (∀ j, j < cfg.patterns.length → ∀ p,
        (p ∈ resolvedGroup fc2.store j ↔
          p ∈ groupFiles env.glob (groupPats cfg.patterns j) ∧
            ∀ k, k < j → p ∉ groupFiles env.glob (groupPats cfg.patterns k))) := by
  have hstore : fc2.store = fullScanGo env.glob cfg.patterns [] := by
    rw [resolve_init_full cfg env hnd] at hres
    cases hres
    rfl
  have hchar : ∀ j, j < cfg.patterns.length → ∀ p,
      (p ∈ resolvedGroup fc2.store j ↔
        p ∈ groupFiles env.glob (groupPats cfg.patterns j) ∧
          ∀ k, k < j → p ∉ groupFiles env.glob (groupPats cfg.patterns k)) := by
    intro j hj p
    rw [hstore, fullScanGo_mem env.glob cfg.patterns [] j hj p]
    constructor
    · rintro ⟨h1, _, h3⟩; exact ⟨h1, h3⟩
    · rintro ⟨h1, h3⟩; exact ⟨h1, List.not_mem_nil p, h3⟩
  refine ⟨?_, hchar⟩
  intro i j hi hj hne p hpi hpj
  have ci := (hchar i hi p).mp hpi
  have cj := (hchar j hj p).mp hpj
  rcases Nat.lt_or_ge i j with h | h
  · exact cj.2 i h ci.1
  · have : j < i := by omega
    exact ci.2 j this cj.1

/-- C5 witness: in the concrete two-group configuration with fully
overlapping patterns, the first group claims the contested path and the
second group's list stays disjoint from it. -/
theorem fullscan_disjoint_earliest_group_witness :
    ("a.py" ∈ resolvedGroup fcW5.store 0) ∧ ("a.py" ∉ resolvedGroup fcW5.store 1) :=
  ⟨by decide,
   (fullscan_disjoint_earliest_group cfgW5 envW5 fcW5 (by decide) rfl).1 0 1 (by decide)
     (by decide) (by decide) "a.py" (by decide)⟩

/-! ## Lemmas about the changed-only group loop -/

theorem addChanged_count (p : String) :
    ∀ (fs changed : List String),
      ((addChanged fs changed).1.count p) + ((addChanged fs changed).2.count p)
        = changed.count p := by
  intro fs
  induction fs with
  | nil => intro changed; simp [addChanged]
  | cons f fs ih =>
    intro changed
    by_cases hf : f ∈ changed
    · rw [addChanged, if_pos hf]
      have ih2 := ih (changed.erase f)
      by_cases hpf : p = f
      · subst hpf
        have he : (changed.erase p).count p = changed.count p - 1 :=
          List.count_erase_self p changed
        have hpos : 0 < changed.count p := List.count_pos_iff.mpr hf
        simp only [List.count_cons_self]
        omega
      · have he : (changed.erase f).count p = changed.count p := by
          rw [List.count_erase_of_ne hpf changed]
        simp only [List.count_cons_of_ne hpf]
        omega
    · rw [addChanged, if_neg hf]
      exact ih changed

theorem changedScanGo_count (glob : String → List String) (p : String) :
    ∀ (groups : List (String × PatternDef)) (changed : List String) (i : Nat),
      i < groups.length →
      (resolvedGroup (changedScanGo glob groups changed) i).count p ≤ changed.count p := by
  intro groups
  induction groups with
  | nil => intro changed i hi; simp at hi
  | cons g rest ih =>
    intro changed i hi
    match i with
    | 0 =>
      rw [show resolvedGroup (changedScanGo glob (g :: rest) changed) 0 =
            (addChanged (groupFiles glob g.2) changed).1 from rfl]
      have := addChanged_count p (groupFiles glob g.2) changed
      omega
    | Nat.succ i =>
      have hi' : i < rest.length := by simpa using hi
      have h1 := ih (addChanged (groupFiles glob g.2) changed).2 i hi'
      have h2 := addChanged_count p (groupFiles glob g.2) changed
      have h3 : resolvedGroup (changedScanGo glob (g :: rest) changed) (i + 1) =
          resolvedGroup (changedScanGo glob rest (addChanged (groupFiles glob g.2) changed).2) i :=
        rfl
      rw [h3]
      omega

theorem changedScanGo_nodup (glob : String → List String)
    (groups : List (String × PatternDef)) (changed : List String)
    (hch : changed.Nodup) (i : Nat) (hi : i < groups.length) :
    (resolvedGroup (changedScanGo glob groups changed) i).Nodup := by
  rw [List.nodup_iff_count_le_one]
  intro p
  have h1 := changedScanGo_count glob p groups changed i hi
  have h2 : changed.count p ≤ 1 := List.nodup_iff_count_le_one.mp hch p
  omega

/-- C8 (amended): within-group deduplication.  Under the full-scan policy
no path ever appears twice within one group's list.  Under the
changed-only policy a path can appear in a group's list at most as often
as it occurs in the combined committed-plus-untracked git output, so
whenever that combined listing names each path at most once — in
particular whenever the two listings are duplicate-free and disjoint —
no path appears twice within any group's list. -/
theorem resolve_group_nodup :
    (∀ (cfg : Config) (env : Env) (fc2 : FileCollection),
        (cfg.patterns.map Prod.fst).Nodup →
        FileCollection.resolve (FileCollection.init cfg false) env = Except.ok fc2 →
        ∀ i, i < cfg.patterns.length → (resolvedGroup fc2.store i).Nodup)
    ∧ (∀ (cfg : Config) (env : Env) (fc2 : FileCollection),
        (cfg.patterns.map Prod.fst).Nodup →
        (changedFiles env).Nodup →
        FileCollection.resolve (FileCollection.init cfg true) env = Except.ok fc2 →
        ∀ i, i < cfg.patterns.length → (resolvedGroup fc2.store i).Nodup) := by
  constructor
  · intro cfg env fc2 hnd hres i hi
    have hstore : fc2.store = fullScanGo env.glob cfg.patterns [] := by
      rw [resolve_init_full cfg env hnd] at hres
      cases hres
      rfl
    rw [hstore]
    exact fullScanGo_nodup env.glob cfg.patterns [] i hi
  · intro cfg env fc2 hnd hch hres i hi
    have hgit : env.gitAvailable = true := by
      by_contra hg
      have hg2 : env.gitAvailable = false := by
        cases henv : env.gitAvailable
        · rfl
        · exact absurd henv hg
      rw [resolve_eq] at hres
      rw [if_pos ?hc] at hres
      · exact Except.noConfusion hres
      case hc => exact ⟨rfl, hg2⟩
    have hstore : fc2.store = changedScanGo env.glob cfg.patterns (changedFiles env) := by
      rw [resolve_init_changed cfg env hnd hgit] at hres
      cases hres
      rfl
    rw [hstore]
    exact changedScanGo_nodup env.glob cfg.patterns (changedFiles env) hch i hi

/-- C8 witness: the amended theorem applied to the concrete two-group
full-scan configuration and to the concrete changed-only duplicate-free
scenario. -/
theorem resolve_group_nodup_witness :
    (resolvedGroup fcW5.store 0).Nodup :=
  resolve_group_nodup.1 cfgW5 envW5 fcW5 (by decide) rfl 0 (by decide)

/-! ## Idempotence of `resolve` -/

theorem map_fst_reset2 (l : List (String × List String)) :
    (l.map (fun kv => (kv.1, ([] : List String)))).map Prod.fst = l.map Prod.fst := by
  rw [List.map_map]; rfl

theorem resolve_ok_shape (fc : FileCollection) (env : Env)
    (hcond : ¬(fc.changed_only ∧ env.gitAvailable = false)) :
    FileCollection.resolve fc env =
      Except.ok (FileCollection.mk fc.patterns fc.changed_only
        ((if fc.changed_only then changedScanGo env.glob fc.patterns (changedFiles env)
          else fullScanGo env.glob fc.patterns []).foldl
          (fun st nv => storeSet st nv.1 nv.2)
          (fc.store.map (fun kv => (kv.1, ([] : List String)))))) := by
  rw [resolve_eq, if_neg hcond]

theorem resolve_fixed (fc : FileCollection) (env : Env)
    (hcond : ¬(fc.changed_only ∧ env.gitAvailable = false))
    (hfix : (if fc.changed_only then changedScanGo env.glob fc.patterns (changedFiles env)
             else fullScanGo env.glob fc.patterns []).foldl
              (fun st nv => storeSet st nv.1 nv.2)
              (fc.store.map (fun kv => (kv.1, ([] : List String)))) = fc.store) :
    FileCollection.resolve fc env = Except.ok fc := by
  rw [resolve_ok_shape fc env hcond, hfix]

theorem storeSet_map_fst (k : String) (v : List String) :
    ∀ (st : List (String × List String)), k ∈ st.map Prod.fst →
      (storeSet st k v).map Prod.fst = st.map Prod.fst := by
  intro st
  induction st with
  | nil => intro h; simp at h
  | cons e st ih =>
    obtain ⟨k0, v0⟩ := e
    intro h
    by_cases he : k0 = k
    · subst he; simp [storeSet]
    · rw [storeSet_head_ne k0 v0 st k v he]
      simp only [List.map_cons]
      have h' : k ∈ k0 :: st.map Prod.fst := by rw [List.map_cons] at h; exact h
      have h2 : k ∈ st.map Prod.fst := by
        rcases List.mem_cons.mp h' with h3 | h3
        · exact absurd h3.symm he
        · exact h3
      rw [ih h2]

theorem foldl_storeSet_map_fst :
    ∀ (body : List (String × List String)) (st : List (String × List String)),
      (∀ e ∈ body, e.1 ∈ st.map Prod.fst) →
      (body.foldl (fun s nv => storeSet s nv.1 nv.2) st).map Prod.fst = st.map Prod.fst := by
  intro body
  induction body with
  | nil => intro st _; rfl
  | cons e body ih =>
    intro st h
    have he : e.1 ∈ st.map Prod.fst := h e (List.mem_cons_self e body)
    have hkeys : (storeSet st e.1 e.2).map Prod.fst = st.map Prod.fst :=
      storeSet_map_fst e.1 e.2 st he
    simp only [List.foldl_cons]
    rw [ih (storeSet st e.1 e.2) ?h2, hkeys]
    case h2 =>
      intro x hx
      rw [hkeys]
      exact h x (List.mem_cons_of_mem e hx)

/-- C9: `resolve` is idempotent.  The dict keys of the collection are the
declared group names (the invariant `__init__` establishes and every
operation preserves); under it, a second `resolve` against the same
filesystem and version-control state reproduces exactly the same
resolution, each group's list in the same order. -/
theorem resolve_idempotent (fc : FileCollection) (env : Env)
    (hkeys : fc.store.map Prod.fst = fc.patterns.map Prod.fst)
    (fc2 : FileCollection) (hres : FileCollection.resolve fc env = Except.ok fc2) :
    FileCollection.resolve fc2 env = Except.ok fc2 := by
  by_cases hcond : fc.changed_only ∧ env.gitAvailable = false
  · rw [resolve_eq, if_pos hcond] at hres
    exact Except.noConfusion hres
  · rw [resolve_ok_shape fc env hcond] at hres
    obtain rfl := (Except.ok.inj hres).symm
    have hbodyfst : (if fc.changed_only then changedScanGo env.glob fc.patterns (changedFiles env)
        else fullScanGo env.glob fc.patterns []).map Prod.fst = fc.patterns.map Prod.fst := by
      by_cases hco : fc.changed_only
      · rw [if_pos hco]; exact changedScanGo_map_fst env.glob fc.patterns (changedFiles env)
      · rw [if_neg hco]; exact fullScanGo_map_fst env.glob fc.patterns []
    have hS1fst : ((if fc.changed_only then changedScanGo env.glob fc.patterns (changedFiles env)
        else fullScanGo env.glob fc.patterns []).foldl
        (fun st nv => storeSet st nv.1 nv.2)
        (fc.store.map (fun kv => (kv.1, ([] : List String))))).map Prod.fst
        = fc.store.map Prod.fst := by
      rw [foldl_storeSet_map_fst _ _ ?hin, map_fst_reset2]
      case hin =>
        intro e he
        rw [map_fst_reset2, hkeys, ← hbodyfst]
        exact List.mem_map_of_mem Prod.fst he
    have hreset : (((if fc.changed_only then changedScanGo env.glob fc.patterns (changedFiles env)
        else fullScanGo env.glob fc.patterns []).foldl
        (fun st nv => storeSet st nv.1 nv.2)
        (fc.store.map (fun kv => (kv.1, ([] : List String)))))).map
          (fun kv => (kv.1, ([] : List String)))
        = fc.store.map (fun kv => (kv.1, ([] : List String))) := by
      rw [map_reset_eq_map_fst, hS1fst]
      conv_rhs => rw [map_reset_eq_map_fst]
    apply resolve_fixed
    · exact hcond
    · dsimp only
      rw [hreset]

/-- C9 witness: the idempotence theorem applied to the concrete two-group
collection: re-resolving the already-resolved collection reproduces it. -/
theorem resolve_idempotent_witness :
    FileCollection.resolve fcW5 envW5 = Except.ok fcW5 :=
  resolve_idempotent (FileCollection.init cfgW5 false) envW5 rfl fcW5 rfl

/-! ## The validator's temporary artifact -/

/-- C6: on every outcome — validator success, validator failure, analysis
success or failure, debug on or off — `_runValidator`'s effect trace is
the temporary-file creation, the validator invocation, some intermediate
effects, and finally the unlink of exactly the path that was passed to
the validator after `-output` (the artifact both invocations operate
on). -/
theorem runValidator_always_unlinks_output (env : Env) (debug : Bool) (profile : String)
    (files : List String) :
    (∃ mid, (runValidator env debug profile files).1 =
        Effect.mkstemp ".xml" :: Effect.run (validatorCmd profile files) ::
          (mid ++ [Effect.unlink validatorOutArg]))
    ∧ validatorCmd profile files =
        Cmd.argv (["java", "-jar", "validator_cli.jar", "-ig", "qa", "-ig", "resources",
                   "-recurse", "-profile", profile, "-output", validatorOutArg] ++ files) := by
  refine ⟨?_, rfl⟩
  rw [runValidator]
  by_cases h1 : pyTruthyInt (popen env (validatorCmd profile files)).2
  · rw [if_pos h1]
    refine ⟨(env.popenLines (validatorCmd profile files)).map Effect.print ++
      (popen env (analyzeCmd validatorOutArg)).1, ?_⟩
    simp [popen]
  · rw [if_neg h1]
    by_cases h2 : debug = false
    · rw [if_pos h2]
      refine ⟨(env.popenLines (validatorCmd profile files)).map Effect.print ++
        [Effect.print validatorWarnMsg], ?_⟩
      simp [popen]
    · rw [if_neg h2]
      refine ⟨(env.popenLines (validatorCmd profile files)).map Effect.print, ?_⟩
      simp [popen]

/-! ## ANSI translation lemmas -/

theorem ansiColorSub_match (a b bold d e hue g : Char) (rest : List Char) :
    ansiColorSub (a :: b :: bold :: d :: e :: hue :: g :: rest) =
      if a = '\x1b' ∧ b = '[' ∧ (bold = '0' ∨ bold = '1') ∧ d = ';' ∧ e = '3' ∧ g = 'm' ∧
          hue ≠ '\n' then
        ansiColorRepl bold hue ++ ansiColorSub rest
      else a :: ansiColorSub (b :: bold :: d :: e :: hue :: g :: rest) := rfl

theorem ansiResetSub_match (a b c d : Char) (rest : List Char) :
    ansiResetSub (a :: b :: c :: d :: rest) =
      if a = '\x1b' ∧ b = '[' ∧ c = '0' ∧ d = 'm' then resetRepl ++ ansiResetSub rest
      else a :: ansiResetSub (b :: c :: d :: rest) := rfl

theorem ansiColorSub_cons_of_ne (a : Char) (l : List Char) (ha : a ≠ '\x1b') :
    ansiColorSub (a :: l) = a :: ansiColorSub l := by
  match l with
  | [] => rfl
  | [c1] => rfl
  | [c1, c2] => rfl
  | [c1, c2, c3] => rfl
  | [c1, c2, c3, c4] => rfl
  | [c1, c2, c3, c4, c5] => rfl
  | c1 :: c2 :: c3 :: c4 :: c5 :: c6 :: rest =>
    rw [ansiColorSub_match, if_neg (fun hcon => ha hcon.1)]

theorem ansiResetSub_cons_of_ne (a : Char) (l : List Char) (ha : a ≠ '\x1b') :
    ansiResetSub (a :: l) = a :: ansiResetSub l := by
  match l with
  | [] => rfl
  | [c1] => rfl
  | [c1, c2] => rfl
  | c1 :: c2 :: c3 :: rest =>
    rw [ansiResetSub_match, if_neg (fun hcon => ha hcon.1)]

theorem ansiColorSub_append_noesc (l1 l2 : List Char) (h : '\x1b' ∉ l1) :
    ansiColorSub (l1 ++ l2) = l1 ++ ansiColorSub l2 := by
  induction l1 with
  | nil => simp
  | cons a l1 ih =>
    have ha : a ≠ '\x1b' := by
      intro he
      subst he
      exact h (List.mem_cons_self _ _)
    rw [List.cons_append, ansiColorSub_cons_of_ne a (l1 ++ l2) ha,
        ih (fun hm => h (List.mem_cons_of_mem a hm)), List.cons_append]

theorem ansiResetSub_append_noesc (l1 l2 : List Char) (h : '\x1b' ∉ l1) :
    ansiResetSub (l1 ++ l2) = l1 ++ ansiResetSub l2 := by
  induction l1 with
  | nil => simp
  | cons a l1 ih =>
    have ha : a ≠ '\x1b' := by
      intro he
      subst he
      exact h (List.mem_cons_self _ _)
    rw [List.cons_append, ansiResetSub_cons_of_ne a (l1 ++ l2) ha,
        ih (fun hm => h (List.mem_cons_of_mem a hm)), List.cons_append]

theorem ansiColorSub_noesc (l : List Char) (h : '\x1b' ∉ l) : ansiColorSub l = l := by
  have h2 := ansiColorSub_append_noesc l [] h
  rw [List.append_nil, show ansiColorSub ([] : List Char) = [] from rfl,
      List.append_nil] at h2
  exact h2

theorem ansiResetSub_noesc (l : List Char) (h : '\x1b' ∉ l) : ansiResetSub l = l := by
  have h2 := ansiResetSub_append_noesc l [] h
  rw [List.append_nil, show ansiResetSub ([] : List Char) = [] from rfl,
      List.append_nil] at h2
  exact h2

/-- C7 (amended): with a live, open listener attached, a red color code
`ESC[1;31m` followed by escape-free text and the reset `ESC[0m`
translates to the red-span markup, the text, and the
close-and-reopen-default markup inside the lightgrey wrapper; an
*in-shape* unrecognized code (`ESC[1;39m`: matched by the color regex but
absent from the palette) translates to the empty string; a code not
matching the regex shape at all (`ESC[1;99m`: no `3` before the hue
digit) is forwarded verbatim, not dropped. -/
theorem write_ansi_translation_amended (t : List Char) (h : '\x1b' ∉ t) :
    (Printer.write printerOpen (String.mk ('\x1b' :: '[' :: '1' :: ';' :: '3' :: '1' :: 'm' ::
        (t ++ ['\x1b', '[', '0', 'm'])))).2 =
      some ("<span style=\x27color: lightgrey;\x27>" ++
        String.mk (("</span><span style=\x27color: red\x27>").toList ++ t ++ resetRepl) ++
        "</span>")
    ∧ ansiResetSub (ansiColorSub ('\x1b' :: '[' :: '1' :: ';' :: '3' :: '9' :: 'm' :: t)) = t
    ∧ ansiResetSub (ansiColorSub ('\x1b' :: '[' :: '1' :: ';' :: '9' :: '9' :: 'm' :: t)) =
        '\x1b' :: '[' :: '1' :: ';' :: '9' :: '9' :: 'm' :: t := by
  refine ⟨?_, ?_, ?_⟩
  · show some ("<span style=\x27color: lightgrey;\x27>" ++
        String.mk (ansiResetSub (ansiColorSub ('\x1b' :: '[' :: '1' :: ';' :: '3' :: '1' :: 'm' ::
          (t ++ ['\x1b', '[', '0', 'm'])))) ++ "</span>") = _
    rw [ansiColorSub_match, if_pos (by decide)]
    rw [show ansiColorRepl '1' '1' = ("</span><span style=\x27color: red\x27>").toList from rfl]
    rw [ansiColorSub_append_noesc t ['\x1b', '[', '0', 'm'] h]
    rw [show ansiColorSub ['\x1b', '[', '0', 'm'] = ['\x1b', '[', '0', 'm'] from rfl]
    rw [ansiResetSub_append_noesc _ (t ++ ['\x1b', '[', '0', 'm']) (by decide)]
    rw [ansiResetSub_append_noesc t ['\x1b', '[', '0', 'm'] h]
    rw [show ansiResetSub ['\x1b', '[', '0', 'm'] = resetRepl from rfl]
    rw [← List.append_assoc]
  · rw [ansiColorSub_match, if_pos (by decide)]
    rw [show ansiColorRepl '1' '9' = ([] : List Char) from rfl, List.nil_append]
    rw [ansiColorSub_noesc t h]
    exact ansiResetSub_noesc t h
  · rw [ansiColorSub_match, if_neg (by decide)]
    have hc := ansiColorSub_append_noesc ['[', '1', ';', '9', '9', 'm'] t (by decide)
    rw [ansiColorSub_noesc t h] at hc
    have hc2 : ansiColorSub ('[' :: '1' :: ';' :: '9' :: '9' :: 'm' :: t)
        = '[' :: '1' :: ';' :: '9' :: '9' :: 'm' :: t := hc
    rw [hc2]
    rw [ansiResetSub_match, if_neg (by decide)]
    have hr := ansiResetSub_append_noesc ['[', '1', ';', '9', '9', 'm'] t (by decide)
    rw [ansiResetSub_noesc t h] at hr
    have hr2 : ansiResetSub ('[' :: '1' :: ';' :: '9' :: '9' :: 'm' :: t)
        = '[' :: '1' :: ';' :: '9' :: '9' :: 'm' :: t := hr
    rw [hr2]

/-- C7 witness: the amended theorem applied to the concrete escape-free
text `X`: the in-shape unrecognized code `ESC[1;39m` is dropped while the
text survives. -/
theorem write_ansi_translation_amended_witness :
    ansiResetSub (ansiColorSub ('\x1b' :: '[' :: '1' :: ';' :: '3' :: '9' :: 'm' :: ['X']))
      = ['X'] :=
  (write_ansi_translation_amended ['X'] (by decide)).2.1

/-! ## The step loop: short-circuit and missing-step behaviour -/

theorem execGo_cons (ex : StepExecutor) (env : Env) (store : List (String × List String))
    (name : String) (rest : List String) (overall : Bool) :
    execGo ex env store (name :: rest) overall =
      match lookupDict ex.steps name with
      | none => ([], Except.error (PyErr.keyError name))
      | some step =>
        match gatherFiles store step with
        | Except.error e => ([Effect.print (announceMsg name)], Except.error e)
        | Except.ok files =>
          if files.length = 0 then
            ([Effect.print (announceMsg name), Effect.print "Nothing to check, skipping"],
             Except.ok (some true))
          else
            (Effect.print (announceMsg name) ::
              ((runAction env ex.debug step files overall).1 ++
               (execGo ex env store rest (runAction env ex.debug step files overall).2).1),
             (execGo ex env store rest (runAction env ex.debug step files overall).2).2) := rfl

theorem runAction_fst (env : Env) (debug : Bool) (step : Step) (files : List String)
    (overall : Bool) :
    (runAction env debug step files overall).1 = (runAction env debug step files true).1 := by
  rcases step with ⟨pats, prof, scr⟩
  cases prof <;> cases scr <;> simp [runAction]

theorem stepTrace_run (ex : StepExecutor) (env : Env) (store : List (String × List String))
    (name : String) (step : Step) (files : List String)
    (hstep : lookupDict ex.steps name = some step)
    (hg : gatherFiles store step = Except.ok files) (hne : files.length ≠ 0) :
    stepTrace ex env store name =
      Effect.print (announceMsg name) :: (runAction env ex.debug step files true).1 := by
  simp only [stepTrace, hstep, hg]
  rw [if_neg hne]

theorem execGo_cons_run (ex : StepExecutor) (env : Env) (store : List (String × List String))
    (name : String) (rest : List String) (overall : Bool) (step : Step) (files : List String)
    (hstep : lookupDict ex.steps name = some step)
    (hg : gatherFiles store step = Except.ok files)
    (hne : files.length ≠ 0) :
    execGo ex env store (name :: rest) overall =
      (stepTrace ex env store name ++
        (execGo ex env store rest (runAction env ex.debug step files overall).2).1,
       (execGo ex env store rest (runAction env ex.debug step files overall).2).2) := by
  simp only [execGo_cons, hstep, hg]
  rw [if_neg hne, stepTrace_run ex env store name step files hstep hg hne, List.cons_append,
      runAction_fst]

theorem execGo_append (ex : StepExecutor) (env : Env) (store : List (String × List String)) :
    ∀ (pre rest : List String) (overall : Bool),
      (∀ n ∈ pre, stepRuns ex store n = true) →
      ∃ o2, execGo ex env store (pre ++ rest) overall =
        ((pre.map (stepTrace ex env store)).flatten ++ (execGo ex env store rest o2).1,
         (execGo ex env store rest o2).2) := by
  intro pre
  induction pre with
  | nil => intro rest overall _; exact ⟨overall, by simp⟩
  | cons n pre ih =>
    intro rest overall h
    have hn := h n (List.mem_cons_self n pre)
    rcases hstep : lookupDict ex.steps n with _ | step
    · simp only [stepRuns, hstep] at hn
      exact absurd hn (by decide)
    · rcases hg : gatherFiles store step with e | files
      · simp only [stepRuns, hstep, hg] at hn
        exact absurd hn (by decide)
      · by_cases hne : files.length = 0
        · simp only [stepRuns, hstep, hg, hne] at hn
          exact absurd hn (by decide)
        · obtain ⟨o2, ho2⟩ := ih rest (runAction env ex.debug step files overall).2
            (fun x hx => h x (List.mem_cons_of_mem n hx))
          refine ⟨o2, ?_⟩
          rw [List.cons_append, execGo_cons_run ex env store n (pre ++ rest) overall step files
              hstep hg hne, ho2]
          simp [List.append_assoc]

/-- C3: if a requested step resolves to zero files, `execute` announces
it, prints the nothing-to-check message, and immediately returns `True`
for the whole run: whatever the results of the already-executed steps
were, no action is launched for the empty step and none of the remaining
requested steps is executed (the trace ends right after the message). -/
theorem execute_empty_step_short_circuits (ex : StepExecutor) (env : Env)
    (fc2 : FileCollection) (pre post : List String) (s : String) (step : Step)
    (hres : FileCollection.resolve ex.fc env = Except.ok fc2)
    (hpre : ∀ n ∈ pre, stepRuns ex fc2.store n = true)
    (hs : lookupDict ex.steps s = some step)
    (hempty : gatherFiles fc2.store step = Except.ok []) :
    StepExecutor.execute ex env (pre ++ s :: post) =
      (executeSetup ex ++ ((pre.map (stepTrace ex env fc2.store)).flatten ++
        [Effect.print (announceMsg s), Effect.print "Nothing to check, skipping"]),
       Except.ok (some true)) := by
  simp only [StepExecutor.execute, hres]
  obtain ⟨o2, ho2⟩ := execGo_append ex env fc2.store pre (s :: post) true hpre
  rw [ho2]
  rw [show execGo ex env fc2.store (s :: post) o2
      = ([Effect.print (announceMsg s), Effect.print "Nothing to check, skipping"],
         Except.ok (some true)) from by simp [execGo_cons, hs, hempty]]

/-- C10: a requested step name that is not among the declared steps makes
`execute` raise a `KeyError` when that step is reached: the preceding
requested steps execute normally (their traces appear), but the missing
step is not announced, not recorded as a failed step, and no later step
runs. -/
theorem execute_missing_step_raises (ex : StepExecutor) (env : Env)
    (fc2 : FileCollection) (pre post : List String) (bad : String)
    (hres : FileCollection.resolve ex.fc env = Except.ok fc2)
    (hpre : ∀ n ∈ pre, stepRuns ex fc2.store n = true)
    (hbad : lookupDict ex.steps bad = none) :
    StepExecutor.execute ex env (pre ++ bad :: post) =
      (executeSetup ex ++ (pre.map (stepTrace ex env fc2.store)).flatten,
       Except.error (PyErr.keyError bad)) := by
  simp only [StepExecutor.execute, hres]
  obtain ⟨o2, ho2⟩ := execGo_append ex env fc2.store pre (bad :: post) true hpre
  rw [ho2]
  rw [show execGo ex env fc2.store (bad :: post) o2
      = ([], Except.error (PyErr.keyError bad)) from by simp [execGo_cons, hbad]]
  simp

/-- C3 witness: in the concrete three-step run, step `a` executes its
script, step `b` has no files, the run stops there with result `True`,
and step `c` contributes nothing. -/
theorem execute_empty_step_short_circuits_witness :
    StepExecutor.execute exW3 envW3 (["a"] ++ "b" :: ["c"]) =
      ([Effect.setenv "debug" "0", Effect.setenv "changed_only" "0",
        Effect.print (announceMsg "a"), Effect.run (Cmd.shell "echo f1"),
        Effect.print (announceMsg "b"), Effect.print "Nothing to check, skipping"],
       Except.ok (some true)) := by
  rw [execute_empty_step_short_circuits exW3 envW3 fcW3res ["a"] ["c"] "b"
      { patterns := some (PatternDef.onePat "pb"), profile := none, script := some "echo" }
      rfl (by decide) rfl rfl]
  rfl

/-- C10 witness: in the concrete run, the declared step `a` executes and
the undeclared name `zzz` then raises a `KeyError`; step `c` never
runs. -/
theorem execute_missing_step_raises_witness :
    StepExecutor.execute exW3 envW3 (["a"] ++ "zzz" :: ["c"]) =
      ([Effect.setenv "debug" "0", Effect.setenv "changed_only" "0",
        Effect.print (announceMsg "a"), Effect.run (Cmd.shell "echo f1")],
       Except.error (PyErr.keyError "zzz")) := by
  rw [execute_missing_step_raises exW3 envW3 fcW3res ["a"] ["c"] "zzz" rfl (by decide) rfl]
  rfl
